import Mathlib

/-!
Verification development for the credit-card manager backend
(`server/main.go`): the record synchronization engine and the
statement ingestion pipeline.

All definitions are shallow embeddings of the Go source.  SQL tables are
modelled as Lean lists, SQL statements as list transformations, Go
`float64` amounts as rationals, and the byte-level regex matching of the
Go `regexp` package as character-level matchers (all the patterns involved
only mention ASCII classes and literal CJK sequences, so byte-level and
character-level matching coincide on UTF-8 input).
-/

namespace CreditCard

/-- Embeds the Go struct `Card` (main.go).  `id` is a `json.Number`,
modelled as a string; `creditLimit` is a `float64`, modelled as a
rational. -/
structure Card where
  id : String
  syncId : String
  name : String
  bank : String
  cardNumber : String
  cvv : String
  expiryDate : String
  cardholderName : String
  creditLimit : ℚ
  billingDay : Int
  paymentDueDay : Int
  color : String
  cardFrontImage : String
  cardBackImage : String
  notes : String
  isDeleted : Bool
  createdAt : Int
  updatedAt : Int
  iv : String
  owner : String
  lastFour : String
deriving DecidableEq, Repr

/-- The `DO UPDATE SET` clause of `upsertCard` (main.go:323-342): every
column of the stored row except `id`, `sync_id` and `created_at` is
overwritten with the incoming (`excluded`) value. -/
def mergeCard (stored incoming : Card) : Card :=
  { incoming with
    id := stored.id
    syncId := stored.syncId
    createdAt := stored.createdAt }

/-- Embeds `upsertCard` (main.go:315-351) against the full `cards`
schema (`id TEXT PRIMARY KEY`, `sync_id TEXT UNIQUE`, main.go:123-147):
`INSERT ... ON CONFLICT(sync_id) DO UPDATE SET ... WHERE
excluded.updated_at > cards.updated_at`.  Matching SQLite's behaviour on
this statement: when some row carries the incoming `sync_id` the upsert
clause fires and updates exactly the rows whose stored `updated_at` is
strictly smaller (the `cards.id` key plays no role on this path, even if
the incoming `id` collides with a different row); otherwise, when the
incoming `id` collides with an existing row, the INSERT aborts with
`UNIQUE constraint failed: cards.id` and the table is unchanged;
otherwise the row is inserted.  Returns the table and the error. -/
def upsertCardDB (store : List Card) (card : Card) :
    List Card × Option String :=
  if store.any (fun s => s.syncId = card.syncId) then
    (store.map (fun s =>
      if s.syncId = card.syncId ∧ s.updatedAt < card.updatedAt then
        mergeCard s card
      else s), none)
  else if store.any (fun s => s.id = card.id) then
    (store, some "UNIQUE constraint failed: cards.id")
  else
    (store ++ [card], none)

/-- The store-level effect of `upsertCard`: its callers in the sync loop
discard the returned error (main.go:188), so a failed INSERT is
observable only as an unchanged table. -/
def upsertCard (store : List Card) (card : Card) : List Card :=
  (upsertCardDB store card).1

/-- Embeds the `SELECT ... WHERE updated_at > ? ORDER BY updated_at DESC`
query of `getCardsSince` (main.go:353-386). -/
def getCardsSince (store : List Card) (since : Int) : List Card :=
  List.insertionSort (fun a b : Card => b.updatedAt ≤ a.updatedAt)
    (store.filter (fun c => decide (since < c.updatedAt)))

/-- Embeds the Go struct `SyncRequest` (main.go:43-47). -/
structure SyncRequest where
  cards : List Card
  lastSyncAt : Int
  deviceId : String
deriving DecidableEq, Repr

/-- The syncId-assignment loop of `syncCards` (main.go:184-187): a card
with an empty `syncId` receives a fresh UUID.  The stream of UUIDs is a
parameter, since `uuid.New()` is nondeterministic. -/
def assignSyncIds (fresh : List String) : List Card → List Card
  | [] => []
  | c :: rest =>
    if c.syncId = "" then
      match fresh with
      | f :: fs => { c with syncId := f } :: assignSyncIds fs rest
      | [] => c :: assignSyncIds [] rest
    else
      c :: assignSyncIds fresh rest

/-- Embeds `syncCards` (main.go:173-202): apply every incoming upsert,
then read the delta of records updated after the watermark.  Returns the
post-upsert store and the delta. -/
def syncCards (store : List Card) (req : SyncRequest) (fresh : List String) :
    List Card × List Card :=
  let store' := (assignSyncIds fresh req.cards).foldl upsertCard store
  (store', getCardsSince store' req.lastSyncAt)

/-- The mutable-field projection of a card: every column that the
`DO UPDATE SET` clause of `upsertCard` overwrites (all columns except
`id`, `sync_id`, `created_at`). -/
def sameMutableFields (a b : Card) : Prop :=
  a.name = b.name ∧ a.bank = b.bank ∧ a.cardNumber = b.cardNumber ∧
  a.cvv = b.cvv ∧ a.expiryDate = b.expiryDate ∧
  a.cardholderName = b.cardholderName ∧ a.creditLimit = b.creditLimit ∧
  a.billingDay = b.billingDay ∧ a.paymentDueDay = b.paymentDueDay ∧
  a.color = b.color ∧ a.cardFrontImage = b.cardFrontImage ∧
  a.cardBackImage = b.cardBackImage ∧ a.notes = b.notes ∧
  a.iv = b.iv ∧ a.owner = b.owner ∧ a.lastFour = b.lastFour ∧
  a.isDeleted = b.isDeleted ∧ a.updatedAt = b.updatedAt

instance (a b : Card) : Decidable (sameMutableFields a b) := by
  unfold sameMutableFields; infer_instance

instance : IsTotal Card (fun a b => b.updatedAt ≤ a.updatedAt) :=
  ⟨fun a b => Int.le_total b.updatedAt a.updatedAt⟩

instance : IsTrans Card (fun a b => b.updatedAt ≤ a.updatedAt) :=
  ⟨fun _ _ _ hab hbc => le_trans hbc hab⟩

/-- ASCII digit, the RE2 class `\d`. -/
def isDigitC (c : Char) : Bool := decide ('0' ≤ c) && decide (c ≤ '9')

/-- The RE2 class `\s` = `[\t\n\f\r ]` (ASCII-only in Go's regexp). -/
def isSpaceRe (c : Char) : Bool :=
  c == ' ' || c == '\t' || c == '\n' || c == '\x0c' || c == '\r'

/-- The RE2 class `[\s\-]` used by `reFullCard` as an optional digit-group
separator and by the strip pass of `extractBillFields` (main.go:716). -/
def isSepC (c : Char) : Bool := isSpaceRe c || c == '-'

/-- RE2 word character (`\w`), the class underlying `\b`. -/
def isWordC (c : Char) : Bool :=
  isDigitC c || (decide ('a' ≤ c) && decide (c ≤ 'z')) ||
    (decide ('A' ≤ c) && decide (c ≤ 'Z')) || c == '_'

/-- Go's `unicode.IsSpace`, the class trimmed by `strings.TrimSpace`. -/
def isUnicodeSpace (c : Char) : Bool :=
  c == '\t' || c == '\n' || c == '\x0b' || c == '\x0c' || c == '\r' ||
  c == ' ' || c == '\x85' || c == '\xa0' || c == '\u1680' ||
  (decide ('\u2000' ≤ c) && decide (c ≤ '\u200A')) ||
  c == '\u2028' || c == '\u2029' || c == '\u202F' || c == '\u205F' ||
  c == '\u3000'

/-- Removes a trailing run of Unicode whitespace (the right half of Go's
`strings.TrimSpace`). -/
def trimRightChars : List Char → List Char
  | [] => []
  | c :: r =>
    match trimRightChars r with
    | [] => if isUnicodeSpace c then [] else [c]
    | t => c :: t

/-- Go's `strings.TrimSpace`: drop leading and trailing Unicode
whitespace. -/
def trimSpaceChars (cs : List Char) : List Char :=
  trimRightChars (cs.dropWhile isUnicodeSpace)

/-- Embeds the Go struct `BillStatement` (main.go).  `EmailUID` is a
`uint32`, modelled as a natural number; the `float64` amounts are
modelled as rationals. -/
structure BillStatement where
  id : Nat
  cardSyncId : String
  emailUid : Nat
  bank : String
  amount : ℚ
  currency : String
  billDate : String
  dueDate : String
  minPayment : ℚ
  statementType : String
  rawContent : String
  matchedBy : String
  matchConfidence : String
  fetchedAt : Int
deriving DecidableEq

/-- The `bill_statements` table (initBillsTables, main.go:477-493): rows
plus the AUTOINCREMENT counter; `email_uid` carries a unique index. -/
structure StmtStore where
  rows : List BillStatement
  nextId : Nat
deriving DecidableEq

/-- The `INSERT OR IGNORE` statement executed by `saveBillStatement`
(main.go:890-902) against the unique index on `email_uid`: the SQL layer
inserts the row and reports inserted, or — when a row with the same
`email_uid` already exists — leaves the table unchanged and reports
not-inserted, in both cases without an error. -/
def insertOrIgnoreStatement (st : StmtStore) (bs : BillStatement) :
    StmtStore × Bool :=
  if st.rows.any (fun r => decide (r.emailUid = bs.emailUid)) then (st, false)
  else
    ({ rows := st.rows ++ [{ bs with id := st.nextId }],
       nextId := st.nextId + 1 }, true)

/-- Embeds `saveBillStatement` (main.go:890-902): runs the
`INSERT OR IGNORE`, discards the SQL result (and with it the
inserted/not-inserted bit) and returns only the error, which is `none`
both on a fresh insert and on an ignored duplicate. -/
def saveBillStatement (st : StmtStore) (bs : BillStatement) :
    StmtStore × Option String :=
  ((insertOrIgnoreStatement st bs).1, none)

/-- Embeds the Go struct `parsedBill` (main.go:446-463). -/
structure ParsedBill where
  uid : Nat
  fromAddr : String
  subject : String
  body : String
  statementType : String
  fullCardNumber : String
  lastFourFromMsg : String
  holderName : String
  amount : ℚ
  currency : String
  minPayment : ℚ
  billDate : String
  dueDate : String
  bank : String
deriving DecidableEq

/-- Embeds the Go struct `matchResult` (main.go:820-825). -/
structure MatchResult where
  card : Card
  matchedBy : String
  confidence : String
  found : Bool
deriving DecidableEq

/-- The zero value of the Go `Card` struct (all fields empty/zero),
carried by a not-found `matchResult`. -/
def defaultCard : Card :=
  { id := "", syncId := "", name := "", bank := "", cardNumber := "",
    cvv := "", expiryDate := "", cardholderName := "", creditLimit := 0,
    billingDay := 0, paymentDueDay := 0, color := "", cardFrontImage := "",
    cardBackImage := "", notes := "", isDeleted := false, createdAt := 0,
    updatedAt := 0, iv := "", owner := "", lastFour := "" }

/-- The last four characters of a string
(`pb.fullCardNumber[len(pb.fullCardNumber)-4:]`, main.go:838; the card
number is ASCII digits, so Go's byte slice equals the char slice). -/
def lastFourOfString (s : String) : String :=
  String.mk (s.data.drop (s.data.length - 4))

/-- Embeds `normalizeChineseName` (main.go:882-884):
`ToUpper(ReplaceAll(TrimSpace(s), " ", ""))`. -/
def normalizeChineseName (s : String) : String :=
  String.mk (((trimSpaceChars s.data).filter (fun c => !(c == ' '))).map
    Char.toUpper)

/-- Embeds `matchBillToCard` (main.go:827-880): filter out deleted cards,
then try the full-card tier, the masked last-four tier and the name tier
in that order; first tier that produces a result wins. -/
def matchBillToCard (pb : ParsedBill) (cards : List Card) : MatchResult :=
  let active := cards.filter (fun c => !c.isDeleted)
  let tier1 : Option MatchResult :=
    if pb.fullCardNumber = "" then none
    else
      let last4 := lastFourOfString pb.fullCardNumber
      match active.find? (fun c => decide (c.lastFour ≠ "" ∧ c.lastFour = last4)) with
      | some c => some ⟨c, "full_card", "high", true⟩
      | none => none
  match tier1 with
  | some r => r
  | none =>
    let tier2 : Option MatchResult :=
      if pb.lastFourFromMsg = "" then none
      else
        match active.filter
            (fun c => decide (c.lastFour ≠ "" ∧ c.lastFour = pb.lastFourFromMsg)) with
        | [] => none
        | [m] => some ⟨m, "last_four", "medium", true⟩
        | m :: _ :: _ => some ⟨m, "last_four", "ambiguous", true⟩
    match tier2 with
    | some r => r
    | none =>
      let tier3 : Option MatchResult :=
        if pb.holderName = "" then none
        else
          match active.filter (fun c =>
              decide (normalizeChineseName c.cardholderName =
                normalizeChineseName pb.holderName)) with
          | [] => none
          | [m] => some ⟨m, "name", "low", true⟩
          | m :: _ :: _ => some ⟨m, "name", "ambiguous", true⟩
      match tier3 with
      | some r => r
      | none => ⟨defaultCard, "", "", false⟩

/-- Embeds `truncate` (main.go:1146-1152): rune-level truncation at `n`
characters with an appended ellipsis. -/
def truncateRunes (s : String) (n : Nat) : String :=
  if s.data.length ≤ n then s else String.mk (s.data.take n ++ "...".data)

/-- The `BillStatement` built for a matched message inside
`handleFetchBills` (main.go:942-956). -/
def billFromParsed (mr : MatchResult) (pb : ParsedBill) (now : Int) :
    BillStatement :=
  { id := 0, cardSyncId := mr.card.syncId, emailUid := pb.uid,
    bank := pb.bank, amount := pb.amount, currency := pb.currency,
    billDate := pb.billDate, dueDate := pb.dueDate,
    minPayment := pb.minPayment, statementType := pb.statementType,
    rawContent := truncateRunes pb.body 2000, matchedBy := mr.matchedBy,
    matchConfidence := mr.confidence, fetchedAt := now }

/-- One iteration of the match-and-store loop of `handleFetchBills`
(main.go:929-962), threading the statement store and the
`saved`/`skipped` counters. -/
def fetchBillsStep (cards : List Card) (now : Int)
    (acc : StmtStore × Nat × Nat) (pb : ParsedBill) : StmtStore × Nat × Nat :=
  let st := acc.1
  let saved := acc.2.1
  let skipped := acc.2.2
  if pb.statementType = "pdf" ∧ pb.body = "" then (st, saved, skipped + 1)
  else
    let mr := matchBillToCard pb cards
    if mr.found then
      let res := saveBillStatement st (billFromParsed mr pb now)
      match res.2 with
      | none => (res.1, saved + 1, skipped)
      | some _ => (res.1, saved, skipped)
    else (st, saved, skipped + 1)

/-- Embeds the body of `handleFetchBills` (main.go:908-973) after the
IMAP fetch: process every parsed message and return the final store
together with the `{total, saved, skipped}` summary. -/
def handleFetchBills (st : StmtStore) (cards : List Card)
    (bills : List ParsedBill) (now : Int) : StmtStore × Nat × Nat × Nat :=
  let res := bills.foldl (fetchBillsStep cards now) (st, 0, 0)
  (res.1, bills.length, res.2.1, res.2.2)

/-- Embeds the message-window logic of `fetchEmailsFromIMAP`
(main.go:506-559) for an established, authenticated session: a mailbox
with zero messages returns an empty list as a success; otherwise the
sequence range `from..Messages` with `from = Messages-99` when more than
100 messages exist (else 1) is fetched, i.e. the last `min(n,100)`
messages.  Connection, login and select failures (which abort before this
logic) are outside the mailbox-state quantification of the claim. -/
def fetchEmailsFromIMAP (inbox : List ParsedBill) :
    Except String (List ParsedBill) :=
  let n := inbox.length
  if n = 0 then Except.ok []
  else
    let f := if 100 < n then n - 99 else 1
    Except.ok (inbox.drop (f - 1))

/-- Consume exactly `n` ASCII digits (`\d{n}`), returning them and the
rest of the input. -/
def takeDigitsExact : Nat → List Char → Option (List Char × List Char)
  | 0, cs => some ([], cs)
  | _ + 1, [] => none
  | n + 1, c :: cs =>
    if isDigitC c then
      match takeDigitsExact n cs with
      | some (g, r) => some (c :: g, r)
      | none => none
    else none

/-- The `\b` word-boundary test at the end of a match whose last consumed
character is a word character: the next character must be absent or a
non-word character. -/
def boundaryAfter : List Char → Bool
  | [] => true
  | c :: _ => !isWordC c

/-- Backtracking for the greedy `\d{2,7}\b` tail of `reFullCard`
(main.go:657): try the repetition counts in the given (descending)
order. -/
def digits27Aux : List Nat → List Char → Option (List Char)
  | [], _ => none
  | k :: ks, cs =>
    match takeDigitsExact k cs with
    | some (g, r) => if boundaryAfter r then some g else digits27Aux ks cs
    | none => digits27Aux ks cs

/-- The `\d{2,7}\b` tail of `reFullCard`, greedy. -/
def digits27 (cs : List Char) : Option (List Char) :=
  digits27Aux [7, 6, 5, 4, 3, 2] cs

/-- `reFullCard` continuation after the third digit quartet and its
optional separator: `\d{2,7}\b`.  `acc` is the capture so far. -/
def cardPart4 (acc : List Char) (cs : List Char) : Option (List Char) :=
  match digits27 cs with
  | some g => some (acc ++ g)
  | none => none

/-- The third optional `[\s\-]?` of `reFullCard` (greedy: the branch that
consumes the separator is tried first). -/
def cardSep3 (acc : List Char) (cs : List Char) : Option (List Char) :=
  match cs with
  | c :: r =>
    if isSepC c then
      match cardPart4 (acc ++ [c]) r with
      | some out => some out
      | none => cardPart4 acc (c :: r)
    else cardPart4 acc (c :: r)
  | [] => cardPart4 acc []

/-- `reFullCard` continuation `\d{4}[\s\-]?\d{2,7}\b`. -/
def cardPart3 (acc : List Char) (cs : List Char) : Option (List Char) :=
  match takeDigitsExact 4 cs with
  | some (g, r) => cardSep3 (acc ++ g) r
  | none => none

/-- The second optional `[\s\-]?` of `reFullCard`. -/
def cardSep2 (acc : List Char) (cs : List Char) : Option (List Char) :=
  match cs with
  | c :: r =>
    if isSepC c then
      match cardPart3 (acc ++ [c]) r with
      | some out => some out
      | none => cardPart3 acc (c :: r)
    else cardPart3 acc (c :: r)
  | [] => cardPart3 acc []

/-- `reFullCard` continuation `\d{4}[\s\-]?\d{4}[\s\-]?\d{2,7}\b`. -/
def cardPart2 (acc : List Char) (cs : List Char) : Option (List Char) :=
  match takeDigitsExact 4 cs with
  | some (g, r) => cardSep2 (acc ++ g) r
  | none => none

/-- The first optional `[\s\-]?` of `reFullCard`. -/
def cardSep1 (acc : List Char) (cs : List Char) : Option (List Char) :=
  match cs with
  | c :: r =>
    if isSepC c then
      match cardPart2 (acc ++ [c]) r with
      | some out => some out
      | none => cardPart2 acc (c :: r)
    else cardPart2 acc (c :: r)
  | [] => cardPart2 acc []

/-- One anchored attempt of `reFullCard`
(`\b(\d{4}[\s\-]?\d{4}[\s\-]?\d{4}[\s\-]?\d{2,7})\b`, main.go:657) at the
current position (the leading `\b` is checked by the caller); returns the
captured group. -/
def matchCardCore (cs : List Char) : Option (List Char) :=
  match takeDigitsExact 4 cs with
  | some (g, r) => cardSep1 g r
  | none => none

/-- The leftmost-first scan of `FindStringSubmatch` for `reFullCard`:
attempt the anchored pattern at each position whose preceding character
is not a word character (`\b` before a digit), moving right on failure.
`prevW` records whether the previous character was a word character
(false at the start of the text). -/
def findCard : Bool → List Char → Option (List Char)
  | _, [] => none
  | prevW, c :: r =>
    if prevW then findCard (isWordC c) r
    else
      match matchCardCore (c :: r) with
      | some g => some g
      | none => findCard (isWordC c) r

/-- Strip the separator characters from a captured card-number group
(`regexp.MustCompile(`+"`[\\s\\-]`"+`).ReplaceAllString(m[1], "")`,
main.go:716). -/
def stripSeps (cs : List Char) : List Char :=
  cs.filter (fun c => !isSepC c)

/-- The full-card block of `extractBillFields` (main.go:714-721): run
`reFullCard` over the text, strip separators from the captured group, and
keep it (with its last four digits) only when at least 15 digits remain.
Returns `(fullCardNumber, lastFourFromMsg)` as character lists, both empty
when nothing qualifies. -/
def extractFullCard (text : List Char) : List Char × List Char :=
  match findCard false text with
  | some g =>
    let raw := stripSeps g
    if 15 ≤ raw.length then (raw, raw.drop (raw.length - 4)) else ([], [])
  | none => ([], [])

/-- Modelled from the claim's words (C6): the list of maximal contiguous
ASCII-digit runs of a text, in order of appearance.  Used only to state
what the claim asserts the extractor returns ("the first contiguous run
of 15-19 digits found in the text"). -/
def digitRunsAux : List Char → List Char → List (List Char)
  | cur, [] => if cur.isEmpty then [] else [cur.reverse]
  | cur, c :: r =>
    if isDigitC c then digitRunsAux (c :: cur) r
    else if cur.isEmpty then digitRunsAux [] r
    else cur.reverse :: digitRunsAux [] r

/-- See the doc comment above: `digitRunsAux` accumulates the current run
reversed. -/
def digitRuns (cs : List Char) : List (List Char) := digitRunsAux [] cs

/-- Modelled from the claim's words (C6): the first contiguous digit run
of length 15-19 in the text. -/
def firstRun1519 (cs : List Char) : Option (List Char) :=
  (digitRuns cs).find? (fun run => decide (15 ≤ run.length) && decide (run.length ≤ 19))

/-- The cue alternation of `reAmount` (main.go:661), in source order. -/
def amountCues : List (List Char) :=
  ["应还款额".data, "账单金额".data, "本期账单".data, "本期应还".data,
   "应还金额".data, "总欠款".data, "账单总额".data, "还款总额".data]

/-- A character of the numeric-token class `[0-9,]` of `reAmount`. -/
def isAmountTokChar (c : Char) : Bool := isDigitC c || c == ','

/-- The greedy captured token `([0-9,]+\.?\d{0,2})` of `reAmount`,
anchored at the current position. -/
def amountTokenAt (cs : List Char) : Option (List Char) :=
  let run1 := cs.takeWhile isAmountTokChar
  if run1.isEmpty then none
  else
    match cs.drop run1.length with
    | '.' :: r2 => some (run1 ++ '.' :: (r2.takeWhile isDigitC).take 2)
    | _ => some run1

/-- The lazy `[^\d]*?` bridge of `reAmount`: try the token at the current
position first, then consume one non-digit character and retry. -/
def amountAfterCue : List Char → Option (List Char)
  | [] => none
  | c :: r =>
    match amountTokenAt (c :: r) with
    | some t => some t
    | none => if isDigitC c then none else amountAfterCue r

/-- Try the cue alternatives in source order at the current position; on
a cue whose continuation fails, backtrack to the next alternative. -/
def cueScanAt : List (List Char) → List Char → Option (List Char)
  | [], _ => none
  | q :: qs, cs =>
    if q.isPrefixOf cs then
      match amountAfterCue (cs.drop q.length) with
      | some t => some t
      | none => cueScanAt qs cs
    else cueScanAt qs cs

/-- The leftmost-first scan of `FindStringSubmatch` for `reAmount`:
attempt the cue alternation at each position, moving right on failure. -/
def amountMatch : List Char → Option (List Char)
  | [] => none
  | c :: r =>
    match cueScanAt amountCues (c :: r) with
    | some t => some t
    | none => amountMatch r

/-- Decimal value of a digit string. -/
def digitsToNat (ds : List Char) : Nat :=
  ds.foldl (fun acc c => acc * 10 + (c.toNat - '0'.toNat)) 0

/-- The string processing of `parseAmount` (main.go:790-795): strip
thousands commas, then split `fmt.Sscanf`-style into the integer-part and
fraction-part digit strings. -/
def parseAmountParts (tok : List Char) : List Char × List Char :=
  let s := tok.filter (fun c => !(c == ','))
  let ip := s.takeWhile isDigitC
  let fp :=
    match s.drop ip.length with
    | '.' :: r => r.takeWhile isDigitC
    | _ => []
  (ip, fp)

/-- Embeds `parseAmount` (main.go:790-795): an unparsable string leaves
the zero value.  The Go `float64` result is modelled as the exact decimal
rational. -/
def parseAmountQ (tok : List Char) : ℚ :=
  let p := parseAmountParts tok
  if p.1.isEmpty && p.2.isEmpty then 0
  else (digitsToNat p.1 : ℚ) + (digitsToNat p.2 : ℚ) / (10 : ℚ) ^ p.2.length

/-- The amount block of `extractBillFields` (main.go:736-740): the field
keeps its zero value when `reAmount` does not match. -/
def extractAmount (text : List Char) : ℚ :=
  match amountMatch text with
  | some tok => parseAmountQ tok
  | none => 0

/-- `extractBillFields` sets `pb.currency = "CNY"` unconditionally
(main.go:737). -/
def extractCurrency : String := "CNY"

/-- Substring occurrence test: does `pat` occur contiguously in the
text?  Used to state the no-cue hypothesis of claim C7. -/
def containsSub (pat : List Char) : List Char → Bool
  | [] => pat.isPrefixOf ([] : List Char)
  | c :: r => pat.isPrefixOf (c :: r) || containsSub pat r

/-- The tag-removal pass of `stripHTML`
(`regexp.MustCompile(`+"`<[^>]+>`"+`).ReplaceAllString(html, " ")`,
main.go:638-639) as a state machine: outside a tag characters pass
through; `<` opens a pending tag whose body (`buf`, reversed) must be
non-empty when `>` arrives for the whole tag to collapse to one space; an
unclosed `<` at end of input is emitted verbatim. -/
def removeTagsAux : Option (List Char) → List Char → List Char
  | none, [] => []
  | none, '<' :: r => removeTagsAux (some []) r
  | none, c :: r => c :: removeTagsAux none r
  | some buf, [] => '<' :: buf.reverse
  | some buf, '>' :: r =>
    if buf.isEmpty then '<' :: '>' :: removeTagsAux none r
    else ' ' :: removeTagsAux none r
  | some buf, c :: r => removeTagsAux (some (c :: buf)) r

/-- The tag-removal pass of `stripHTML` (main.go:638-639). -/
def removeTags (cs : List Char) : List Char := removeTagsAux none cs

/-- Worker for Go's `strings.ReplaceAll`: `skip` counts characters of an
already-replaced occurrence still to be consumed. -/
def replaceAllAux (pat rep : List Char) : Nat → List Char → List Char
  | _ + 1, [] => []
  | skip + 1, _ :: r => replaceAllAux pat rep skip r
  | 0, [] => []
  | 0, c :: r =>
    if pat ≠ [] ∧ pat.isPrefixOf (c :: r) then
      rep ++ replaceAllAux pat rep (pat.length - 1) r
    else
      c :: replaceAllAux pat rep 0 r

/-- Go's `strings.ReplaceAll` for a non-empty pattern: replace every
non-overlapping occurrence, scanning left to right. -/
def replaceAll (pat rep cs : List Char) : List Char :=
  replaceAllAux pat rep 0 cs

/-- The entity-resolution pass of `stripHTML` (main.go:641-645): the five
named entities, replaced in source order. -/
def resolveEntities (cs : List Char) : List Char :=
  replaceAll "&yen;".data "¥".data
    (replaceAll "&gt;".data ">".data
      (replaceAll "&lt;".data "<".data
        (replaceAll "&amp;".data "&".data
          (replaceAll "&nbsp;".data " ".data cs))))

/-- The whitespace-collapse pass of `stripHTML`
(`regexp.MustCompile(`+"`\\s+`"+`).ReplaceAllString(text, " ")`,
main.go:647-648): every maximal run of RE2 whitespace becomes one
space. -/
def collapseWsAux : Bool → List Char → List Char
  | _, [] => []
  | inRun, c :: r =>
    if isSpaceRe c then
      if inRun then collapseWsAux true r else ' ' :: collapseWsAux true r
    else c :: collapseWsAux false r

/-- See the doc comment above: `inRun` records whether the current
whitespace run has already emitted its single space. -/
def collapseWs (cs : List Char) : List Char := collapseWsAux false cs

/-- Embeds `stripHTML` (main.go:637-649): remove tags, resolve the five
named entities, collapse whitespace runs, trim. -/
def stripHTML (cs : List Char) : List Char :=
  trimSpaceChars (collapseWs (resolveEntities (removeTags cs)))

/-- No two adjacent RE2-whitespace characters (the shape guaranteed by
the collapse pass). -/
def noTwoSpaces : List Char → Bool
  | a :: b :: r => !(isSpaceRe a && isSpaceRe b) && noTwoSpaces (b :: r)
  | _ => true

/-- The head character, when present, is not RE2 whitespace. -/
def headNotSpace : List Char → Bool
  | [] => true
  | c :: _ => !isSpaceRe c

/-- Test fixture: a card with the given syncId, display name, holder
name, stored last-four, update timestamp and deletion flag; the remaining
fields are fixed harmless values. -/
def sampleCard (sid nm holder l4 : String) (ts : Int) (del : Bool) : Card :=
  { id := "1", syncId := sid, name := nm, bank := "招商银行",
    cardNumber := "", cvv := "", expiryDate := "12/30",
    cardholderName := holder, creditLimit := 10000, billingDay := 5,
    paymentDueDay := 25, color := "blue", cardFrontImage := "",
    cardBackImage := "", notes := "", isDeleted := del, createdAt := 100,
    updatedAt := ts, iv := "", owner := "", lastFour := l4 }

/-- Test fixture: a parsed bill message with the given uid, extracted
full card number, masked last-four, holder name and statement type. -/
def sampleBill (uid : Nat) (fullCard l4 holder stype body : String) :
    ParsedBill :=
  { uid := uid, fromAddr := "service@cmbchina.com", subject := "账单",
    body := body, statementType := stype, fullCardNumber := fullCard,
    lastFourFromMsg := l4, holderName := holder, amount := 100,
    currency := "CNY", minPayment := 10, billDate := "2026-01-05",
    dueDate := "2026-01-25", bank := "招商银行" }

/-- Test fixture: a stored bill statement row with the given id and
email uid. -/
def sampleStatement (i : Nat) (uid : Nat) : BillStatement :=
  { id := i, cardSyncId := "sync-1", emailUid := uid, bank := "招商银行",
    amount := 100, currency := "CNY", billDate := "2026-01-05",
    dueDate := "2026-01-25", minPayment := 10, statementType := "text",
    rawContent := "", matchedBy := "full_card", matchConfidence := "high",
    fetchedAt := 1000 }

theorem sameMutableFields_refl (a : Card) : sameMutableFields a a := by
  unfold sameMutableFields; exact ⟨rfl, rfl, rfl, rfl, rfl, rfl, rfl, rfl,
    rfl, rfl, rfl, rfl, rfl, rfl, rfl, rfl, rfl, rfl⟩

theorem mergeCard_sameMutableFields (s c : Card) :
    sameMutableFields (mergeCard s c) c :=
  sameMutableFields_refl c

theorem mergeCard_syncId (s c : Card) : (mergeCard s c).syncId = s.syncId := rfl

theorem mergeCard_updatedAt (s c : Card) :
    (mergeCard s c).updatedAt = c.updatedAt := rfl

theorem upsertCard_conflict {store : List Card} {card : Card}
    (h : store.any (fun s => s.syncId = card.syncId) = true) :
    upsertCard store card = store.map (fun s =>
      if s.syncId = card.syncId ∧ s.updatedAt < card.updatedAt then
        mergeCard s card
      else s) := by
  unfold upsertCard upsertCardDB
  rw [if_pos h]

theorem upsertCard_errPath {store : List Card} {card : Card}
    (h1 : store.any (fun s => s.syncId = card.syncId) = false)
    (h2 : store.any (fun s => s.id = card.id) = true) :
    upsertCard store card = store
    ∧ (upsertCardDB store card).2 =
        some "UNIQUE constraint failed: cards.id" := by
  unfold upsertCard upsertCardDB
  rw [h1]
  simp only [Bool.false_eq_true, if_false]
  rw [if_pos h2]
  exact ⟨rfl, rfl⟩

theorem upsertCard_insertPath {store : List Card} {card : Card}
    (h1 : store.any (fun s => s.syncId = card.syncId) = false)
    (h2 : store.any (fun s => s.id = card.id) = false) :
    upsertCard store card = store ++ [card] := by
  unfold upsertCard upsertCardDB
  rw [h1, h2]
  simp

/-- Membership in the result of an upsert: every record is an untouched
old record, the freshly inserted record, or a merge of an old record with
the incoming one. -/
theorem upsertCard_mem {store : List Card} {card x : Card}
    (hx : x ∈ upsertCard store card) :
    x ∈ store ∨ x = card ∨ ∃ s ∈ store, x = mergeCard s card := by
  cases hs : store.any (fun s => s.syncId = card.syncId) with
  | true =>
    rw [upsertCard_conflict hs] at hx
    obtain ⟨s, hsm, hmap⟩ := List.mem_map.mp hx
    by_cases hc : s.syncId = card.syncId ∧ s.updatedAt < card.updatedAt
    · rw [if_pos hc] at hmap
      exact Or.inr (Or.inr ⟨s, hsm, hmap.symm⟩)
    · rw [if_neg hc] at hmap
      exact Or.inl (hmap ▸ hsm)
  | false =>
    cases hid : store.any (fun s => s.id = card.id) with
    | true =>
      rw [(upsertCard_errPath hs hid).1] at hx
      exact Or.inl hx
    | false =>
      rw [upsertCard_insertPath hs hid] at hx
      rcases List.mem_append.mp hx with h1 | h2
      · exact Or.inl h1
      · exact Or.inr (Or.inl (List.mem_singleton.mp h2))

/-- A record matching the incoming syncId survives (possibly merged) the
upsert. -/
theorem upsertCard_preserves_match {store : List Card} {card : Card}
    (c0 : Card) (hc0 : c0 ∈ store) (hcs : c0.syncId = card.syncId) :
    ∃ x ∈ upsertCard store card, x.syncId = c0.syncId := by
  rw [upsertCard_conflict (List.any_eq_true.mpr ⟨c0, hc0, decide_eq_true hcs⟩)]
  refine ⟨_, List.mem_map.mpr ⟨c0, hc0, rfl⟩, ?_⟩
  by_cases hcond : c0.syncId = card.syncId ∧ c0.updatedAt < card.updatedAt
  · rw [if_pos hcond, mergeCard_syncId]
  · rw [if_neg hcond]

/-- After an upsert that did not abort on the `cards.id` key — the
conflict branch fired, or the id was absent — some record with the
incoming `syncId` is present. -/
theorem upsertCard_exists_syncId (store : List Card) (card : Card)
    (hok : store.any (fun s => s.syncId = card.syncId) = true ∨
      store.any (fun s => s.id = card.id) = false) :
    ∃ x ∈ upsertCard store card, x.syncId = card.syncId := by
  cases hs : store.any (fun s => s.syncId = card.syncId) with
  | true =>
    obtain ⟨c0, hc0, hcs⟩ := List.any_eq_true.mp hs
    obtain ⟨x, hx, hxs⟩ :=
      upsertCard_preserves_match c0 hc0 (of_decide_eq_true hcs)
    exact ⟨x, hx, by rw [hxs]; exact of_decide_eq_true hcs⟩
  | false =>
    have hid : store.any (fun s => s.id = card.id) = false := by
      rcases hok with hok | hok
      · rw [hs] at hok
        exact absurd hok (by simp)
      · exact hok
    rw [upsertCard_insertPath hs hid]
    exact ⟨card, List.mem_append.mpr (Or.inr (List.mem_singleton.mpr rfl)), rfl⟩

/-- If every stored record carrying the incoming `syncId` is strictly
older than the incoming record, then after the upsert every record
carrying that `syncId` holds exactly the incoming record's mutable
fields. -/
theorem upsertCard_lww {store : List Card} {card : Card}
    (hlt : ∀ c ∈ store, c.syncId = card.syncId → c.updatedAt < card.updatedAt) :
    ∀ x ∈ upsertCard store card, x.syncId = card.syncId →
      sameMutableFields x card := by
  intro x hx hsync
  cases hs : store.any (fun s => s.syncId = card.syncId) with
  | true =>
    rw [upsertCard_conflict hs] at hx
    obtain ⟨s, hsm, hmap⟩ := List.mem_map.mp hx
    by_cases hc : s.syncId = card.syncId ∧ s.updatedAt < card.updatedAt
    · rw [if_pos hc] at hmap
      exact hmap ▸ mergeCard_sameMutableFields s card
    · rw [if_neg hc] at hmap
      subst hmap
      exact absurd ⟨hsync, hlt s hsm hsync⟩ hc
  | false =>
    have hnots : ∀ c ∈ store, ¬ c.syncId = card.syncId := by
      intro c hc
      simpa using List.any_eq_false.mp hs c hc
    cases hid : store.any (fun s => s.id = card.id) with
    | true =>
      rw [(upsertCard_errPath hs hid).1] at hx
      exact absurd hsync (hnots x hx)
    | false =>
      rw [upsertCard_insertPath hs hid] at hx
      rcases List.mem_append.mp hx with h1 | h2
      · exact absurd hsync (hnots x h1)
      · rw [List.mem_singleton.mp h2]
        exact sameMutableFields_refl card

/-- If some stored record matches the incoming `syncId` and no matching
stored record is strictly older than the incoming record, the upsert
leaves the store unchanged. -/
theorem upsertCard_stale {store : List Card} {card : Card}
    (hmatch : ∃ c ∈ store, c.syncId = card.syncId)
    (hge : ∀ c ∈ store, c.syncId = card.syncId → ¬ c.updatedAt < card.updatedAt) :
    upsertCard store card = store := by
  obtain ⟨c0, hc0, hs0⟩ := hmatch
  rw [upsertCard_conflict (List.any_eq_true.mpr ⟨c0, hc0, decide_eq_true hs0⟩)]
  have hmap : List.map (fun s =>
      if s.syncId = card.syncId ∧ s.updatedAt < card.updatedAt then
        mergeCard s card
      else s) store = List.map id store := by
    apply List.map_congr_left
    intro s hs
    simp only [id]
    rw [if_neg]
    rintro ⟨h1, h2⟩
    exact hge s hs h1 h2
  rw [hmap, List.map_id]

/-- After an upsert, no record carrying the incoming `syncId` is strictly
older than the incoming record. -/
theorem upsertCard_not_lt (store : List Card) (card : Card) :
    ∀ c ∈ upsertCard store card, c.syncId = card.syncId →
      ¬ c.updatedAt < card.updatedAt := by
  intro c hc hsync
  cases hs : store.any (fun s => s.syncId = card.syncId) with
  | true =>
    rw [upsertCard_conflict hs] at hc
    obtain ⟨s, hsm, hmap⟩ := List.mem_map.mp hc
    by_cases hcond : s.syncId = card.syncId ∧ s.updatedAt < card.updatedAt
    · rw [if_pos hcond] at hmap
      rw [← hmap, mergeCard_updatedAt]
      exact lt_irrefl _
    · rw [if_neg hcond] at hmap
      subst hmap
      intro hlt
      exact hcond ⟨hsync, hlt⟩
  | false =>
    have hnots : ∀ x ∈ store, ¬ x.syncId = card.syncId := by
      intro x hx
      simpa using List.any_eq_false.mp hs x hx
    cases hid : store.any (fun s => s.id = card.id) with
    | true =>
      rw [(upsertCard_errPath hs hid).1] at hc
      exact absurd hsync (hnots c hc)
    | false =>
      rw [upsertCard_insertPath hs hid] at hc
      rcases List.mem_append.mp hc with h1 | h2
      · exact absurd hsync (hnots c h1)
      · rw [List.mem_singleton.mp h2]
        exact lt_irrefl _

/-- Upserting the same record twice is the same as upserting it once. -/
theorem upsertCard_idem (store : List Card) (card : Card) :
    upsertCard (upsertCard store card) card = upsertCard store card := by
  cases hs : store.any (fun s => s.syncId = card.syncId) with
  | true =>
    apply upsertCard_stale
    · exact upsertCard_exists_syncId store card (Or.inl hs)
    · exact upsertCard_not_lt store card
  | false =>
    cases hid : store.any (fun s => s.id = card.id) with
    | true =>
      rw [(upsertCard_errPath hs hid).1]
      exact (upsertCard_errPath hs hid).1
    | false =>
      apply upsertCard_stale
      · exact upsertCard_exists_syncId store card (Or.inr hid)
      · exact upsertCard_not_lt store card

theorem sameMutableFields_updatedAt {a b : Card}
    (h : sameMutableFields a b) : a.updatedAt = b.updatedAt := by
  obtain ⟨_, _, _, _, _, _, _, _, _, _, _, _, _, _, _, _, _, hts⟩ := h
  exact hts

/-- Counterexample to claim C1 as stated: the claim demands insertion
whenever no record with the incoming `syncId` exists, but the `cards`
table also has `id TEXT PRIMARY KEY` and the upsert clause targets only
`sync_id`.  On a store holding a row with the same `id` under a
different `syncId`, the INSERT aborts with
`UNIQUE constraint failed: cards.id` (discarded by the sync loop) and
the record is never stored. -/
theorem claim_C1_counterexample :
    (∀ s ∈ [sampleCard "a" "X" "甲" "1111" 5 false],
        s.syncId ≠ (sampleCard "b" "NEW" "乙" "2222" 10 false).syncId)
    ∧ upsertCard [sampleCard "a" "X" "甲" "1111" 5 false]
        (sampleCard "b" "NEW" "乙" "2222" 10 false)
      = [sampleCard "a" "X" "甲" "1111" 5 false]
    ∧ (sampleCard "b" "NEW" "乙" "2222" 10 false) ∉
        upsertCard [sampleCard "a" "X" "甲" "1111" 5 false]
          (sampleCard "b" "NEW" "乙" "2222" 10 false)
    ∧ (upsertCardDB [sampleCard "a" "X" "甲" "1111" 5 false]
        (sampleCard "b" "NEW" "乙" "2222" 10 false)).2
      = some "UNIQUE constraint failed: cards.id" := by
  decide

/-- Claim C1 amended: the sync upsert inserts the record when no record
with its `syncId` exists *and* no stored row carries its `id`; when the
`syncId` is absent but the `id` collides with an existing row, the INSERT
aborts with `UNIQUE constraint failed: cards.id` (the error is discarded
by the sync loop) and the store is unchanged.  When a record with the
`syncId` exists, it overwrites every mutable field only if
`incoming.updatedAt > stored.updatedAt` — strictly greater, so on a stale
or equal timestamp the store is untouched — and applying the same record
twice is observably the same as applying it once.  The `mergeCard`
conjuncts spell out that the overwrite covers every record field except
the row key `id`, the conflict key `sync_id` and the immutable
`created_at`. -/
theorem claim_C1_amended_upsert_rule (store : List Card) (card s0 : Card) :
    ((∀ s ∈ store, s.syncId ≠ card.syncId) → (∀ s ∈ store, s.id ≠ card.id) →
        upsertCard store card = store ++ [card])
    ∧ ((∀ s ∈ store, s.syncId ≠ card.syncId) → (∃ s ∈ store, s.id = card.id) →
        upsertCard store card = store
        ∧ (upsertCardDB store card).2 =
            some "UNIQUE constraint failed: cards.id")
    ∧ ((∃ s ∈ store, s.syncId = card.syncId) →
        (∀ s ∈ store, s.syncId = card.syncId → s.updatedAt < card.updatedAt) →
        upsertCard store card =
          store.map (fun s =>
            if s.syncId = card.syncId then mergeCard s card else s))
    ∧ ((∃ s ∈ store, s.syncId = card.syncId) →
        (∀ s ∈ store, s.syncId = card.syncId → ¬ s.updatedAt < card.updatedAt) →
        upsertCard store card = store)
    ∧ upsertCard (upsertCard store card) card = upsertCard store card
    ∧ sameMutableFields (mergeCard s0 card) card
    ∧ (mergeCard s0 card).id = s0.id
    ∧ (mergeCard s0 card).syncId = s0.syncId
    ∧ (mergeCard s0 card).createdAt = s0.createdAt := by
  refine ⟨?_, ?_, ?_, ?_, upsertCard_idem store card,
    mergeCard_sameMutableFields s0 card, rfl, rfl, rfl⟩
  · intro h hi
    apply upsertCard_insertPath
    · rw [List.any_eq_false]
      intro s hs
      simpa using h s hs
    · rw [List.any_eq_false]
      intro s hs
      simpa using hi s hs
  · intro h hi
    obtain ⟨s1, hs1, hid1⟩ := hi
    apply upsertCard_errPath
    · rw [List.any_eq_false]
      intro s hs
      simpa using h s hs
    · exact List.any_eq_true.mpr ⟨s1, hs1, decide_eq_true hid1⟩
  · rintro ⟨s1, hs1, hsync1⟩ hall
    rw [upsertCard_conflict
      (List.any_eq_true.mpr ⟨s1, hs1, decide_eq_true hsync1⟩)]
    apply List.map_congr_left
    intro s hs
    by_cases hm : s.syncId = card.syncId
    · rw [if_pos ⟨hm, hall s hs hm⟩, if_pos hm]
    · rw [if_neg (fun hc => hm hc.1), if_neg hm]
  · exact fun hex hall => upsertCard_stale hex hall

/-- Witness for the amended claim C1: a concrete store holding one record
with syncId `s1` at timestamp 10, upserted with a strictly newer record
(timestamp 20) carrying the same syncId, ends up holding the merge of the
two. -/
theorem claim_C1_witness :
    upsertCard [sampleCard "s1" "old" "张三" "1234" 10 false]
        (sampleCard "s1" "new" "李四" "5678" 20 false)
      = [mergeCard (sampleCard "s1" "old" "张三" "1234" 10 false)
          (sampleCard "s1" "new" "李四" "5678" 20 false)] := by
  have h := (claim_C1_amended_upsert_rule
    [sampleCard "s1" "old" "张三" "1234" 10 false]
    (sampleCard "s1" "new" "李四" "5678" 20 false)
    (sampleCard "s1" "old" "张三" "1234" 10 false)).2.2.1
    (by decide) (by decide)
  rw [h]
  decide

/-- Claim C2: the delta returned by a sync call is exactly the set of
records of the post-upsert store — soft-deleted ones included, since no
`is_deleted` filter appears in the query — whose `updatedAt` exceeds the
watermark, ordered by `updatedAt` descending. -/
theorem claim_C2_sync_delta_exact (store : List Card) (req : SyncRequest)
    (fresh : List String) :
    (∀ r : Card, r ∈ (syncCards store req fresh).2 ↔
      (r ∈ (syncCards store req fresh).1 ∧ req.lastSyncAt < r.updatedAt))
    ∧ List.Sorted (fun a b : Card => b.updatedAt ≤ a.updatedAt)
        (syncCards store req fresh).2 := by
  have h1 : (syncCards store req fresh).1 =
      (assignSyncIds fresh req.cards).foldl upsertCard store := rfl
  have h2 : (syncCards store req fresh).2 =
      getCardsSince ((assignSyncIds fresh req.cards).foldl upsertCard store)
        req.lastSyncAt := rfl
  constructor
  · intro r
    rw [h1, h2]
    unfold getCardsSince
    rw [(List.perm_insertionSort _ _).mem_iff, List.mem_filter]
    simp
  · rw [h2]
    unfold getCardsSince
    exact List.sorted_insertionSort _ _

/-- Counterexample to claim C3 as stated: the claim quantifies over every
store state, but when the store already holds a record under the same
syncId with a timestamp (10) larger than both writes (1 and 2), both
application orders leave that untouched record in place, which does not
carry the fields of the t2 write. -/
theorem claim_C3_counterexample :
    upsertCard (upsertCard [sampleCard "a" "orig" "甲" "1111" 10 false]
        (sampleCard "a" "w1" "乙" "2222" 1 false))
        (sampleCard "a" "w2" "丙" "3333" 2 false)
      = [sampleCard "a" "orig" "甲" "1111" 10 false]
    ∧ upsertCard (upsertCard [sampleCard "a" "orig" "甲" "1111" 10 false]
        (sampleCard "a" "w2" "丙" "3333" 2 false))
        (sampleCard "a" "w1" "乙" "2222" 1 false)
      = [sampleCard "a" "orig" "甲" "1111" 10 false]
    ∧ (sampleCard "a" "w1" "乙" "2222" 1 false).syncId
        = (sampleCard "a" "w2" "丙" "3333" 2 false).syncId
    ∧ (sampleCard "a" "w1" "乙" "2222" 1 false).updatedAt
        < (sampleCard "a" "w2" "丙" "3333" 2 false).updatedAt
    ∧ (sampleCard "a" "orig" "甲" "1111" 10 false).syncId
        = (sampleCard "a" "w2" "丙" "3333" 2 false).syncId
    ∧ ¬ sameMutableFields (sampleCard "a" "orig" "甲" "1111" 10 false)
        (sampleCard "a" "w2" "丙" "3333" 2 false) := by
  decide

/-- Claim C3 amended: for two writes to the same syncId with `t1 < t2`,
provided every record already stored under that syncId is older than t2,
and — when the syncId is absent from the store — no stored row carries
either write's row `id` (otherwise the INSERT aborts on the `cards.id`
key and no record is stored), applying the two upserts in either order
leaves the store holding, on every record under that syncId, exactly the
mutable fields of the t2 write (the row `id` and `created_at` keep the
values of whichever row first created the record). -/
theorem claim_C3_amended_lww (store : List Card) (w1 w2 : Card)
    (hsync : w1.syncId = w2.syncId)
    (hlt : w1.updatedAt < w2.updatedAt)
    (hstore : ∀ c ∈ store, c.syncId = w2.syncId → c.updatedAt < w2.updatedAt)
    (hid : (∃ c ∈ store, c.syncId = w2.syncId) ∨
      (∀ c ∈ store, c.id ≠ w1.id ∧ c.id ≠ w2.id)) :
    ((∃ x ∈ upsertCard (upsertCard store w1) w2, x.syncId = w2.syncId)
     ∧ (∀ x ∈ upsertCard (upsertCard store w1) w2, x.syncId = w2.syncId →
         sameMutableFields x w2))
    ∧ ((∃ x ∈ upsertCard (upsertCard store w2) w1, x.syncId = w2.syncId)
       ∧ (∀ x ∈ upsertCard (upsertCard store w2) w1, x.syncId = w2.syncId →
           sameMutableFields x w2)) := by
  have hex1 : ∃ x ∈ upsertCard store w1, x.syncId = w2.syncId := by
    cases hs : store.any (fun s => s.syncId = w1.syncId) with
    | true =>
      obtain ⟨c0, hc0, hcs⟩ := List.any_eq_true.mp hs
      obtain ⟨x, hx, hxs⟩ :=
        upsertCard_preserves_match c0 hc0 (of_decide_eq_true hcs)
      refine ⟨x, hx, ?_⟩
      rw [hxs, of_decide_eq_true hcs, hsync]
    | false =>
      have hidf : store.any (fun s => s.id = w1.id) = false := by
        rcases hid with ⟨c0, hc0, hcs⟩ | hfresh
        · exfalso
          have hmem : store.any (fun s => s.syncId = w1.syncId) = true :=
            List.any_eq_true.mpr ⟨c0, hc0, decide_eq_true (by rw [hcs, hsync])⟩
          rw [hs] at hmem
          exact absurd hmem (by simp)
        · rw [List.any_eq_false]
          intro c hc
          simpa using (hfresh c hc).1
      obtain ⟨x, hx, hxs⟩ := upsertCard_exists_syncId store w1 (Or.inr hidf)
      exact ⟨x, hx, by rw [hxs, hsync]⟩
  have hex2 : ∃ x ∈ upsertCard store w2, x.syncId = w2.syncId := by
    cases hs : store.any (fun s => s.syncId = w2.syncId) with
    | true => exact upsertCard_exists_syncId store w2 (Or.inl hs)
    | false =>
      have hidf : store.any (fun s => s.id = w2.id) = false := by
        rcases hid with ⟨c0, hc0, hcs⟩ | hfresh
        · exfalso
          have hmem : store.any (fun s => s.syncId = w2.syncId) = true :=
            List.any_eq_true.mpr ⟨c0, hc0, decide_eq_true hcs⟩
          rw [hs] at hmem
          exact absurd hmem (by simp)
        · rw [List.any_eq_false]
          intro c hc
          simpa using (hfresh c hc).2
      exact upsertCard_exists_syncId store w2 (Or.inr hidf)
  have hstore1 : ∀ c ∈ upsertCard store w1, c.syncId = w2.syncId →
      c.updatedAt < w2.updatedAt := by
    intro c hc hcs
    rcases upsertCard_mem hc with h1 | h2 | ⟨s, _, h3⟩
    · exact hstore c h1 hcs
    · rw [h2]; exact hlt
    · rw [h3, mergeCard_updatedAt]; exact hlt
  have hr2eq : upsertCard (upsertCard store w2) w1 = upsertCard store w2 := by
    apply upsertCard_stale
    · obtain ⟨x, hx, hxs⟩ := hex2
      refine ⟨x, hx, ?_⟩
      rw [hsync]
      exact hxs
    · intro c hc hcs
      have hmut := upsertCard_lww hstore c hc (by rw [← hsync]; exact hcs)
      rw [sameMutableFields_updatedAt hmut]
      intro hbad
      exact absurd (lt_trans hbad hlt) (lt_irrefl _)
  refine ⟨⟨?_, ?_⟩, ?_, ?_⟩
  · obtain ⟨x1, hx1, hxs1⟩ := hex1
    obtain ⟨y, hy, hys⟩ := upsertCard_preserves_match x1 hx1 hxs1
    exact ⟨y, hy, by rw [hys]; exact hxs1⟩
  · exact upsertCard_lww hstore1
  · rw [hr2eq]
    exact hex2
  · rw [hr2eq]
    exact upsertCard_lww hstore

/-- Witness for the amended claim C3, at the empty store and two concrete
writes with timestamps 1 < 2: both application orders leave every record
under the shared syncId carrying the fields of the timestamp-2 write. -/
theorem claim_C3_amended_witness :
    ((∃ x ∈ upsertCard (upsertCard ([] : List Card)
          (sampleCard "a" "w1" "乙" "2222" 1 false))
          (sampleCard "a" "w2" "丙" "3333" 2 false),
        x.syncId = (sampleCard "a" "w2" "丙" "3333" 2 false).syncId)
     ∧ (∀ x ∈ upsertCard (upsertCard ([] : List Card)
          (sampleCard "a" "w1" "乙" "2222" 1 false))
          (sampleCard "a" "w2" "丙" "3333" 2 false),
        x.syncId = (sampleCard "a" "w2" "丙" "3333" 2 false).syncId →
          sameMutableFields x (sampleCard "a" "w2" "丙" "3333" 2 false)))
    ∧ ((∃ x ∈ upsertCard (upsertCard ([] : List Card)
          (sampleCard "a" "w2" "丙" "3333" 2 false))
          (sampleCard "a" "w1" "乙" "2222" 1 false),
        x.syncId = (sampleCard "a" "w2" "丙" "3333" 2 false).syncId)
       ∧ (∀ x ∈ upsertCard (upsertCard ([] : List Card)
            (sampleCard "a" "w2" "丙" "3333" 2 false))
            (sampleCard "a" "w1" "乙" "2222" 1 false),
          x.syncId = (sampleCard "a" "w2" "丙" "3333" 2 false).syncId →
            sameMutableFields x (sampleCard "a" "w2" "丙" "3333" 2 false))) :=
  claim_C3_amended_lww [] (sampleCard "a" "w1" "乙" "2222" 1 false)
    (sampleCard "a" "w2" "丙" "3333" 2 false) rfl (by decide)
    (fun c hc _ => absurd hc (List.not_mem_nil c))
    (Or.inr (fun c hc => absurd hc (List.not_mem_nil c)))

theorem saveBillStatement_dup {st : StmtStore} {bs : BillStatement}
    (hdup : ∃ r ∈ st.rows, r.emailUid = bs.emailUid) :
    saveBillStatement st bs = (st, none) := by
  obtain ⟨r, hr, hre⟩ := hdup
  have hany : st.rows.any (fun r => decide (r.emailUid = bs.emailUid)) = true :=
    List.any_eq_true.mpr ⟨r, hr, decide_eq_true hre⟩
  unfold saveBillStatement insertOrIgnoreStatement
  rw [hany]
  rfl

theorem insertOrIgnore_dup {st : StmtStore} {bs : BillStatement}
    (hdup : ∃ r ∈ st.rows, r.emailUid = bs.emailUid) :
    insertOrIgnoreStatement st bs = (st, false) := by
  obtain ⟨r, hr, hre⟩ := hdup
  have hany : st.rows.any (fun r => decide (r.emailUid = bs.emailUid)) = true :=
    List.any_eq_true.mpr ⟨r, hr, decide_eq_true hre⟩
  unfold insertOrIgnoreStatement
  rw [hany]
  rfl

theorem saveBillStatement_fresh {st : StmtStore} {bs : BillStatement}
    (hfresh : ∀ r ∈ st.rows, r.emailUid ≠ bs.emailUid) :
    (saveBillStatement st bs).1 =
      { rows := st.rows ++ [{ bs with id := st.nextId }],
        nextId := st.nextId + 1 } := by
  have hany : st.rows.any (fun r => decide (r.emailUid = bs.emailUid)) = false := by
    rw [List.any_eq_false]
    intro r hr
    simpa using hfresh r hr
  unfold saveBillStatement insertOrIgnoreStatement
  rw [hany]
  rfl

/-- Claim C4: saving a statement whose email UID already exists in the
statement store is a no-op — the `INSERT OR IGNORE` reports not-inserted
(`false`) rather than an error (`none`) — and saving the same UID twice
starting from a store without it leaves exactly one stored row with that
UID. -/
theorem claim_C4_statement_dedup (st : StmtStore) (bs bs2 : BillStatement) :
    ((∃ r ∈ st.rows, r.emailUid = bs.emailUid) →
        insertOrIgnoreStatement st bs = (st, false)
        ∧ saveBillStatement st bs = (st, none))
    ∧ (bs2.emailUid = bs.emailUid →
        st.rows.countP (fun r => decide (r.emailUid = bs.emailUid)) = 0 →
        ((saveBillStatement (saveBillStatement st bs).1 bs2).1.rows.countP
            (fun r => decide (r.emailUid = bs.emailUid))) = 1) := by
  constructor
  · intro hdup
    exact ⟨insertOrIgnore_dup hdup, saveBillStatement_dup hdup⟩
  · intro heq hcount
    have hfresh : ∀ r ∈ st.rows, r.emailUid ≠ bs.emailUid := by
      intro r hr
      have hz := List.countP_eq_zero.mp hcount r hr
      simpa using hz
    have h1 := saveBillStatement_fresh hfresh
    have hmem : ∃ r ∈ (saveBillStatement st bs).1.rows,
        r.emailUid = bs2.emailUid := by
      refine ⟨{ bs with id := st.nextId }, ?_, ?_⟩
      · rw [h1]
        exact List.mem_append.mpr (Or.inr (List.mem_singleton.mpr rfl))
      · rw [heq]
    have h2 : saveBillStatement (saveBillStatement st bs).1 bs2 =
        ((saveBillStatement st bs).1, none) := saveBillStatement_dup hmem
    rw [h2]
    rw [h1]
    simp only [List.countP_append, hcount, Nat.zero_add]
    simp [List.countP_cons]

/-- Witness for claim C4: saving the same concrete statement (email UID
42) twice into an initially empty store yields exactly one row with that
UID. -/
theorem claim_C4_witness :
    ((saveBillStatement
        (saveBillStatement ⟨[], 1⟩ (sampleStatement 0 42)).1
        (sampleStatement 0 42)).1.rows.countP
      (fun r => decide (r.emailUid = (sampleStatement 0 42).emailUid))) = 1 :=
  (claim_C4_statement_dedup ⟨[], 1⟩ (sampleStatement 0 42)
    (sampleStatement 0 42)).2 rfl (by decide)

/-- Claim C5, part of the proof: the full-card tier of `matchBillToCard`
returns the first active account whose stored last-four equals the last
four digits of the extracted full card number, with `full_card`/`high`. -/
theorem matchBillToCard_tier1 (pb : ParsedBill) (cards : List Card) (A : Card)
    (hfc : pb.fullCardNumber ≠ "")
    (hfind : (cards.filter (fun c => !c.isDeleted)).find?
        (fun c => decide (c.lastFour ≠ "" ∧
          c.lastFour = lastFourOfString pb.fullCardNumber)) = some A) :
    matchBillToCard pb cards = ⟨A, "full_card", "high", true⟩ := by
  unfold matchBillToCard
  simp only [if_neg hfc, hfind]

/-- Claim C5: the matcher considers only non-deleted accounts (filtering
deleted ones changes nothing), and the full-card tier applies first: when
a full card number was extracted and some active account's stored
last-four equals its final four digits, the result is the first such
account with `matchedBy = full_card` and confidence `high`, regardless of
any holder-name signal. -/
theorem claim_C5_full_card_priority (pb : ParsedBill) (cards : List Card)
    (A : Card) :
    (matchBillToCard pb cards =
      matchBillToCard pb (cards.filter (fun c => !c.isDeleted)))
    ∧ (pb.fullCardNumber ≠ "" →
        (cards.filter (fun c => !c.isDeleted)).find?
            (fun c => decide (c.lastFour ≠ "" ∧
              c.lastFour = lastFourOfString pb.fullCardNumber)) = some A →
        matchBillToCard pb cards = ⟨A, "full_card", "high", true⟩) := by
  constructor
  · have hff : (cards.filter (fun c => !c.isDeleted)).filter
        (fun c => !c.isDeleted) = cards.filter (fun c => !c.isDeleted) := by
      rw [List.filter_filter]
      congr 1
      funext a
      rw [Bool.and_self]
    conv_rhs => unfold matchBillToCard
    rw [hff]
    rfl
  · exact matchBillToCard_tier1 pb cards A

/-- Witness for claim C5: a message whose full card number ends in 1234
(matching account A) and whose holder name 张三 matches a *different*
account B listed first is attributed to A with `full_card`/`high`. -/
theorem claim_C5_witness :
    matchBillToCard
        (sampleBill 7 "6225881234561234" "" "张三" "text" "body")
        [sampleCard "sB" "B" "张三" "9999" 5 false,
         sampleCard "sA" "A" "王五" "1234" 5 false]
      = ⟨sampleCard "sA" "A" "王五" "1234" 5 false, "full_card", "high", true⟩ :=
  (claim_C5_full_card_priority
      (sampleBill 7 "6225881234561234" "" "张三" "text" "body")
      [sampleCard "sB" "B" "张三" "9999" 5 false,
       sampleCard "sA" "A" "王五" "1234" 5 false]
      (sampleCard "sA" "A" "王五" "1234" 5 false)).2
    (by decide) (by decide)

/-- Claim C10: a matched, non-skipped message whose email UID is already
present in the statement store leaves the store unchanged (the insert is
silently ignored) yet increments the run summary's `saved` counter, not
`skipped`: the summary for a one-message run is
`{total := 1, saved := 1, skipped := 0}`. -/
theorem claim_C10_duplicate_counted_saved (st : StmtStore)
    (cards : List Card) (pb : ParsedBill) (now : Int)
    (hnp : ¬ (pb.statementType = "pdf" ∧ pb.body = ""))
    (hm : (matchBillToCard pb cards).found = true)
    (hdup : ∃ r ∈ st.rows, r.emailUid = pb.uid) :
    handleFetchBills st cards [pb] now = (st, 1, 1, 0) := by
  have hsave : saveBillStatement st
      (billFromParsed (matchBillToCard pb cards) pb now) = (st, none) := by
    apply saveBillStatement_dup
    obtain ⟨r, hr, hre⟩ := hdup
    exact ⟨r, hr, hre⟩
  unfold handleFetchBills
  simp only [List.foldl_cons, List.foldl_nil]
  unfold fetchBillsStep
  simp only [if_neg hnp, hm, if_pos, hsave]
  rfl

/-- Witness for claim C10: re-ingesting a concrete matched message with
email UID 42 that is already stored yields summary
`{total := 1, saved := 1, skipped := 0}` and an unchanged store. -/
theorem claim_C10_witness :
    handleFetchBills ⟨[sampleStatement 1 42], 2⟩
        [sampleCard "sA" "A" "王五" "1234" 5 false]
        [sampleBill 42 "6225881234561234" "" "" "text" "body"] 999
      = (⟨[sampleStatement 1 42], 2⟩, 1, 1, 0) :=
  claim_C10_duplicate_counted_saved ⟨[sampleStatement 1 42], 2⟩
    [sampleCard "sA" "A" "王五" "1234" 5 false]
    (sampleBill 42 "6225881234561234" "" "" "text" "body") 999
    (by decide) (by decide) (by decide)

/-- Claim C8: for every mailbox state reached by an established session,
the fetch returns (as a success) exactly the most recent
`min(n, 100)` messages: all of them when the mailbox holds 100 or fewer,
the last 100 when it holds more, and the empty list — not an error — when
it holds zero. -/
theorem claim_C8_fetch_window (inbox : List ParsedBill) :
    fetchEmailsFromIMAP inbox = Except.ok (inbox.drop (inbox.length - 100))
    ∧ (inbox.drop (inbox.length - 100)).length = min inbox.length 100
    ∧ (100 < inbox.length → (inbox.drop (inbox.length - 100)).length = 100)
    ∧ (inbox.length ≤ 100 → inbox.drop (inbox.length - 100) = inbox)
    ∧ fetchEmailsFromIMAP ([] : List ParsedBill) = Except.ok [] := by
  refine ⟨?_, ?_, ?_, ?_, rfl⟩
  · unfold fetchEmailsFromIMAP
    by_cases h0 : inbox.length = 0
    · rw [if_pos h0]
      rw [List.length_eq_zero.mp h0]
      rfl
    · rw [if_neg h0]
      by_cases h100 : 100 < inbox.length
      · rw [if_pos h100]
        show Except.ok (List.drop (inbox.length - 99 - 1) inbox) = _
        have h : inbox.length - 99 - 1 = inbox.length - 100 := by omega
        rw [h]
      · rw [if_neg h100]
        show Except.ok (List.drop (1 - 1) inbox) = _
        have h2 : inbox.length - 100 = 0 := by omega
        rw [h2]
  · rw [List.length_drop]
    omega
  · intro h
    rw [List.length_drop]
    omega
  · intro h
    have hz : inbox.length - 100 = 0 := by omega
    rw [hz, List.drop_zero]

/-- Witness for claim C8: a one-message mailbox is returned whole, as a
success. -/
theorem claim_C8_witness :
    fetchEmailsFromIMAP [sampleBill 1 "" "" "" "text" "x"]
      = Except.ok [sampleBill 1 "" "" "" "text" "x"] := by
  have h := claim_C8_fetch_window [sampleBill 1 "" "" "" "text" "x"]
  rw [h.1, h.2.2.2.1 (by decide)]

theorem noTwoSpaces_cons (c : Char) (l : List Char)
    (hc : isSpaceRe c = false ∨ headNotSpace l = true)
    (hl : noTwoSpaces l = true) : noTwoSpaces (c :: l) = true := by
  cases l with
  | nil => rfl
  | cons b r =>
    rw [noTwoSpaces]
    rw [hl]
    rcases hc with hc | hc
    · rw [hc]; rfl
    · simp only [headNotSpace] at hc
      have hb : isSpaceRe b = false := by
        cases hbb : isSpaceRe b
        · rfl
        · rw [hbb] at hc; simp at hc
      rw [hb]
      simp

theorem noTwoSpaces_tail {a : Char} {l : List Char}
    (h : noTwoSpaces (a :: l) = true) : noTwoSpaces l = true := by
  cases l with
  | nil => rfl
  | cons b r =>
    rw [noTwoSpaces] at h
    rw [Bool.and_eq_true] at h
    exact h.2

theorem noTwoSpaces_dropWhile (p : Char → Bool) (l : List Char)
    (h : noTwoSpaces l = true) : noTwoSpaces (l.dropWhile p) = true := by
  induction l with
  | nil => rfl
  | cons a t ih =>
    rw [List.dropWhile_cons]
    cases hp : p a
    · simpa using h
    · simp only [if_pos rfl]
      exact ih (noTwoSpaces_tail h)

theorem collapseWsAux_true_head (cs : List Char) :
    headNotSpace (collapseWsAux true cs) = true := by
  induction cs with
  | nil => rfl
  | cons c r ih =>
    rw [collapseWsAux]
    cases hc : isSpaceRe c
    · simp only [Bool.false_eq_true, if_false, headNotSpace, hc]
      rfl
    · simp only [if_pos rfl]
      exact ih

/-- The collapse pass leaves no two adjacent whitespace characters, for
either value of the run flag. -/
theorem collapseWsAux_noTwoSpaces (cs : List Char) :
    ∀ b, noTwoSpaces (collapseWsAux b cs) = true := by
  induction cs with
  | nil => intro b; rfl
  | cons c r ih =>
    intro b
    rw [collapseWsAux]
    cases hc : isSpaceRe c
    · simp only [Bool.false_eq_true, if_false]
      exact noTwoSpaces_cons c _ (Or.inl hc) (ih false)
    · simp only [if_pos rfl]
      cases b
      · simp only [Bool.false_eq_true, if_false]
        exact noTwoSpaces_cons ' ' _
          (Or.inr (collapseWsAux_true_head r)) (ih true)
      · simp only [if_pos rfl]
        exact ih true

theorem trimRightChars_shape (c : Char) (r : List Char) :
    trimRightChars (c :: r) = [] ∨
    ∃ t, trimRightChars (c :: r) = c :: t := by
  rw [trimRightChars]
  cases htr : trimRightChars r with
  | nil =>
    cases hc : isUnicodeSpace c
    · exact Or.inr ⟨[], by simp [hc]⟩
    · exact Or.inl (by simp [hc])
  | cons x xs => exact Or.inr ⟨x :: xs, rfl⟩

theorem trimRightChars_noTwoSpaces (l : List Char)
    (h : noTwoSpaces l = true) : noTwoSpaces (trimRightChars l) = true := by
  induction l with
  | nil => rfl
  | cons c r ih =>
    rw [trimRightChars]
    cases htr : trimRightChars r with
    | nil =>
      cases hc : isUnicodeSpace c <;> simp [hc, noTwoSpaces]
    | cons x xs =>
      have hno : noTwoSpaces (x :: xs) = true := htr ▸ ih (noTwoSpaces_tail h)
      cases r with
      | nil => simp [trimRightChars] at htr
      | cons b r2 =>
        rcases trimRightChars_shape b r2 with hsh | ⟨t, hsh⟩
        · rw [hsh] at htr; exact absurd htr (by simp)
        · rw [hsh] at htr
          injection htr with h1 h2
          rw [noTwoSpaces, hno]
          rw [noTwoSpaces, Bool.and_eq_true] at h
          rw [← h1]
          simp [h.1]

/-- The last character surviving the right trim is not Unicode
whitespace. -/
theorem trimRightChars_getLast (l : List Char) :
    ∀ h, (trimRightChars l).getLast? = some h → isUnicodeSpace h = false := by
  induction l with
  | nil => intro h hh; simp [trimRightChars] at hh
  | cons c r ih =>
    intro h hh
    rw [trimRightChars] at hh
    cases htr : trimRightChars r with
    | nil =>
      rw [htr] at hh
      cases hc : isUnicodeSpace c
      · simp only [hc, Bool.false_eq_true, if_false] at hh
        simp at hh
        rw [← hh]
        exact hc
      · simp [hc] at hh
    | cons x xs =>
      rw [htr] at hh
      rw [List.getLast?_cons_cons] at hh
      exact ih h (htr ▸ hh)

theorem dropWhile_head_not (p : Char → Bool) (l : List Char) :
    ∀ h, (l.dropWhile p).head? = some h → p h = false := by
  induction l with
  | nil => intro h hh; simp at hh
  | cons a t ih =>
    intro h hh
    rw [List.dropWhile_cons] at hh
    cases hp : p a
    · rw [hp] at hh
      simp only [Bool.false_eq_true, if_false, List.head?_cons,
        Option.some.injEq] at hh
      rw [← hh]
      exact hp
    · rw [hp] at hh
      simp only [if_pos rfl] at hh
      exact ih h hh

theorem trimRightChars_head (l : List Char) :
    ∀ h, (trimRightChars l).head? = some h → l.head? = some h := by
  cases l with
  | nil => intro h hh; simp [trimRightChars] at hh
  | cons c r =>
    intro h hh
    rcases trimRightChars_shape c r with hsh | ⟨t, hsh⟩
    · rw [hsh] at hh; simp at hh
    · rw [hsh] at hh
      simp only [List.head?_cons, Option.some.injEq] at hh
      rw [← hh]
      rfl

/-- Claim C9: `stripHTML` is exactly the pipeline "replace each tag with
one space, resolve exactly the five named entities, collapse whitespace
runs to one space, trim".  General conjuncts: the output never carries two
adjacent whitespace characters and is trimmed on both ends.  Concrete
conjuncts: a tag becomes a single space; each of the five entities
resolves; an unlisted entity (`&quot;`) does not; entity resolution runs
after tag removal (so `&lt;p&gt;` yields a literal `<p>` that is not
removed); whitespace runs collapse and the ends are trimmed. -/
theorem claim_C9_stripHTML_pipeline (s : List Char) :
    stripHTML s = trimSpaceChars (collapseWs (resolveEntities (removeTags s)))
    ∧ noTwoSpaces (stripHTML s) = true
    ∧ (∀ h, (stripHTML s).head? = some h → isUnicodeSpace h = false)
    ∧ (∀ h, (stripHTML s).getLast? = some h → isUnicodeSpace h = false)
    ∧ stripHTML ("a<b>c".data) = "a c".data
    ∧ stripHTML ("a&nbsp;b".data) = "a b".data
    ∧ stripHTML ("&amp;".data) = "&".data
    ∧ stripHTML ("&lt;".data) = "<".data
    ∧ stripHTML ("&gt;".data) = ">".data
    ∧ stripHTML ("&yen;".data) = "¥".data
    ∧ stripHTML ("&lt;p&gt;".data) = "<p>".data
    ∧ stripHTML ("&quot;x".data) = "&quot;x".data
    ∧ stripHTML ("  a \t\n b  ".data) = "a b".data := by
  refine ⟨rfl, ?_, ?_, ?_, by decide, by decide, by decide, by decide,
    by decide, by decide, by decide, by decide, by decide⟩
  · exact trimRightChars_noTwoSpaces _
      (noTwoSpaces_dropWhile _ _ (collapseWsAux_noTwoSpaces _ false))
  · intro h hh
    exact dropWhile_head_not _ _ h (trimRightChars_head _ h hh)
  · intro h hh
    exact trimRightChars_getLast _ h hh

/-- Witness for claim C9: on a concrete input the head of the stripped
output is the non-whitespace character the head condition promises. -/
theorem claim_C9_witness : isUnicodeSpace 'x' = false :=
  (claim_C9_stripHTML_pipeline (" x ".data)).2.2.1 'x' (by decide)

theorem cueScanAt_none (cues : List (List Char)) (cs : List Char)
    (h : ∀ q ∈ cues, q.isPrefixOf cs = false) :
    cueScanAt cues cs = none := by
  induction cues with
  | nil => rfl
  | cons q qs ih =>
    rw [cueScanAt]
    rw [h q (List.mem_cons_self q qs)]
    simp only [Bool.false_eq_true, if_false]
    exact ih (fun q2 hq2 => h q2 (List.mem_cons_of_mem q hq2))

theorem containsSub_false_elim {pat : List Char} {c : Char} {r : List Char}
    (h : containsSub pat (c :: r) = false) :
    pat.isPrefixOf (c :: r) = false ∧ containsSub pat r = false := by
  rw [containsSub] at h
  rw [Bool.or_eq_false_iff] at h
  exact h

theorem amountMatch_none (text : List Char)
    (h : ∀ q ∈ amountCues, containsSub q text = false) :
    amountMatch text = none := by
  induction text with
  | nil => rfl
  | cons c r ih =>
    rw [amountMatch]
    rw [cueScanAt_none amountCues (c :: r)
      (fun q hq => (containsSub_false_elim (h q hq)).1)]
    exact ih (fun q hq => (containsSub_false_elim (h q hq)).2)

/-- Claim C7: the extracted amount requires a cue phrase — when no amount
cue occurs anywhere in the text the amount keeps its zero value — and on
the spec's scenario text `本期应还款 ¥1,234.56` the extractor yields
amount 1234.56 (the thousands comma stripped before parsing) with
currency `CNY`. -/
theorem claim_C7_amount_requires_cue :
    (∀ text : List Char,
        (∀ q ∈ amountCues, containsSub q text = false) →
        extractAmount text = 0)
    ∧ extractAmount ("本期应还款 ¥1,234.56".data) = (1234.56 : ℚ)
    ∧ extractCurrency = "CNY" := by
  refine ⟨?_, ?_, rfl⟩
  · intro text h
    unfold extractAmount
    rw [amountMatch_none text h]
  · have hp : parseAmountQ ("1,234.56".data) = 1234.56 := by
      unfold parseAmountQ
      rw [show parseAmountParts ("1,234.56".data)
          = ("1234".data, "56".data) from by decide]
      show (if (("1234".data).isEmpty && ("56".data).isEmpty) = true then (0 : ℚ)
          else (digitsToNat ("1234".data) : ℚ)
            + (digitsToNat ("56".data) : ℚ) / (10 : ℚ) ^ (("56".data).length))
        = 1234.56
      rw [show digitsToNat ("1234".data) = 1234 from by decide]
      rw [show digitsToNat ("56".data) = 56 from by decide]
      rw [show ("56".data).length = 2 from by decide]
      rw [show (("1234".data).isEmpty && ("56".data).isEmpty) = false
          from by decide]
      norm_num
    unfold extractAmount
    rw [show amountMatch ("本期应还款 ¥1,234.56".data)
        = some ("1,234.56".data) from by decide]
    exact hp

/-- Witness for claim C7: a cue-free text yields the zero (unset)
amount. -/
theorem claim_C7_witness : extractAmount ("hello 123.45 world".data) = 0 :=
  claim_C7_amount_requires_cue.1 ("hello 123.45 world".data) (by decide)

theorem takeDigitsExact_spec :
    ∀ (n : Nat) (cs g r : List Char),
      takeDigitsExact n cs = some (g, r) →
      g.all isDigitC = true ∧ g.length = n := by
  intro n
  induction n with
  | zero =>
    intro cs g r h
    rw [takeDigitsExact] at h
    simp only [Option.some.injEq, Prod.mk.injEq] at h
    obtain ⟨h1, _⟩ := h
    rw [← h1]
    exact ⟨rfl, rfl⟩
  | succ n ih =>
    intro cs g r h
    cases cs with
    | nil => simp [takeDigitsExact] at h
    | cons c cs2 =>
      rw [takeDigitsExact] at h
      cases hd : isDigitC c
      · rw [hd] at h
        simp at h
      · rw [hd] at h
        rw [if_pos rfl] at h
        cases hrec : takeDigitsExact n cs2 with
        | none => rw [hrec] at h; simp at h
        | some p =>
          obtain ⟨g2, r2⟩ := p
          rw [hrec] at h
          simp only [Option.some.injEq, Prod.mk.injEq] at h
          obtain ⟨hg, _⟩ := h
          have hi := ih cs2 g2 r2 hrec
          rw [← hg]
          constructor
          · rw [List.all_cons, hd, hi.1]
            rfl
          · simp [hi.2]

theorem digits27Aux_spec :
    ∀ (ks : List Nat) (cs g : List Char),
      (∀ k ∈ ks, 2 ≤ k ∧ k ≤ 7) → digits27Aux ks cs = some g →
      g.all isDigitC = true ∧ 2 ≤ g.length ∧ g.length ≤ 7 := by
  intro ks
  induction ks with
  | nil => intro cs g _ h; simp [digits27Aux] at h
  | cons k ks ih =>
    intro cs g hks h
    rw [digits27Aux] at h
    cases htk : takeDigitsExact k cs with
    | none =>
      rw [htk] at h
      exact ih cs g (fun k2 hk2 => hks k2 (List.mem_cons_of_mem k hk2)) h
    | some p =>
      obtain ⟨g0, r⟩ := p
      rw [htk] at h
      have h2 : (if boundaryAfter r = true then some g0
          else digits27Aux ks cs) = some g := h
      cases hb : boundaryAfter r
      · rw [hb] at h2
        simp only [Bool.false_eq_true, if_false] at h2
        exact ih cs g (fun k2 hk2 => hks k2 (List.mem_cons_of_mem k hk2)) h2
      · rw [hb] at h2
        rw [if_pos rfl] at h2
        have hg0 : g0 = g := Option.some.inj h2
        obtain ⟨hall, hlen⟩ := takeDigitsExact_spec k cs g0 r htk
        have hk := hks k (List.mem_cons_self k ks)
        rw [← hg0]
        exact ⟨hall, by omega, by omega⟩

theorem digits27_spec (cs g : List Char) (h : digits27 cs = some g) :
    g.all isDigitC = true ∧ 2 ≤ g.length ∧ g.length ≤ 7 :=
  digits27Aux_spec [7, 6, 5, 4, 3, 2] cs g (by decide) h

theorem digit_not_sep {c : Char} (h : isDigitC c = true) :
    isSepC c = false := by
  unfold isDigitC at h
  rw [Bool.and_eq_true, decide_eq_true_eq, decide_eq_true_eq] at h
  have hne : ∀ d : Char, d < '0' → (c == d) = false := by
    intro d hd
    cases heq : (c == d)
    · rfl
    · exfalso
      have hcd : c = d := by
        rw [← beq_iff_eq (a := c) (b := d)]
        exact heq
      rw [hcd] at h
      exact absurd h.1 (not_le.mpr hd)
  unfold isSepC isSpaceRe
  rw [hne ' ' (by decide), hne '\t' (by decide), hne '\n' (by decide),
    hne '\x0c' (by decide), hne '\r' (by decide), hne '-' (by decide)]
  rfl

theorem stripSeps_append (a b : List Char) :
    stripSeps (a ++ b) = stripSeps a ++ stripSeps b := by
  unfold stripSeps
  exact List.filter_append _ _

theorem stripSeps_digits {g : List Char} (h : g.all isDigitC = true) :
    stripSeps g = g := by
  unfold stripSeps
  rw [List.filter_eq_self]
  intro c hc
  have hd := List.all_eq_true.mp h c hc
  rw [digit_not_sep hd]
  rfl

theorem stripSeps_sep_snoc {c : Char} (acc : List Char)
    (h : isSepC c = true) : stripSeps (acc ++ [c]) = stripSeps acc := by
  rw [stripSeps_append]
  unfold stripSeps
  rw [List.filter_cons]
  rw [h]
  simp

theorem cardPart4_spec :
    ∀ (acc cs out : List Char), cardPart4 acc cs = some out →
      ∃ g, stripSeps out = stripSeps acc ++ g ∧ g.all isDigitC = true ∧
        2 ≤ g.length ∧ g.length ≤ 7 := by
  intro acc cs out h
  unfold cardPart4 at h
  cases hd : digits27 cs with
  | none => rw [hd] at h; simp at h
  | some g =>
    rw [hd] at h
    have hout : acc ++ g = out := Option.some.inj h
    obtain ⟨hall, h2, h7⟩ := digits27_spec cs g hd
    refine ⟨g, ?_, hall, h2, h7⟩
    rw [← hout, stripSeps_append, stripSeps_digits hall]

theorem cardSep3_spec :
    ∀ (acc cs out : List Char), cardSep3 acc cs = some out →
      ∃ g, stripSeps out = stripSeps acc ++ g ∧ g.all isDigitC = true ∧
        2 ≤ g.length ∧ g.length ≤ 7 := by
  intro acc cs out h
  cases cs with
  | nil =>
    rw [cardSep3] at h
    exact cardPart4_spec acc [] out h
  | cons c r =>
    rw [cardSep3] at h
    cases hsep : isSepC c
    · rw [hsep] at h
      simp only [Bool.false_eq_true, if_false] at h
      exact cardPart4_spec acc (c :: r) out h
    · rw [hsep] at h
      rw [if_pos rfl] at h
      cases hp : cardPart4 (acc ++ [c]) r with
      | some out2 =>
        rw [hp] at h
        have hout : out2 = out := Option.some.inj h
        obtain ⟨g, hs, hall, h2, h7⟩ := cardPart4_spec (acc ++ [c]) r out2 hp
        refine ⟨g, ?_, hall, h2, h7⟩
        rw [← hout, hs, stripSeps_sep_snoc acc hsep]
      | none =>
        rw [hp] at h
        exact cardPart4_spec acc (c :: r) out h

theorem cardPart3_spec :
    ∀ (acc cs out : List Char), cardPart3 acc cs = some out →
      ∃ g, stripSeps out = stripSeps acc ++ g ∧ g.all isDigitC = true ∧
        6 ≤ g.length ∧ g.length ≤ 11 := by
  intro acc cs out h
  unfold cardPart3 at h
  cases ht : takeDigitsExact 4 cs with
  | none => rw [ht] at h; simp at h
  | some p =>
    obtain ⟨g4, r⟩ := p
    rw [ht] at h
    obtain ⟨g, hs, hall, h2, h7⟩ := cardSep3_spec (acc ++ g4) r out h
    obtain ⟨hall4, hlen4⟩ := takeDigitsExact_spec 4 cs g4 r ht
    refine ⟨g4 ++ g, ?_, ?_, ?_, ?_⟩
    · rw [hs, stripSeps_append, stripSeps_digits hall4, List.append_assoc]
    · rw [List.all_append, hall4, hall]
      rfl
    · rw [List.length_append, hlen4]
      omega
    · rw [List.length_append, hlen4]
      omega

theorem cardSep2_spec :
    ∀ (acc cs out : List Char), cardSep2 acc cs = some out →
      ∃ g, stripSeps out = stripSeps acc ++ g ∧ g.all isDigitC = true ∧
        6 ≤ g.length ∧ g.length ≤ 11 := by
  intro acc cs out h
  cases cs with
  | nil =>
    rw [cardSep2] at h
    exact cardPart3_spec acc [] out h
  | cons c r =>
    rw [cardSep2] at h
    cases hsep : isSepC c
    · rw [hsep] at h
      simp only [Bool.false_eq_true, if_false] at h
      exact cardPart3_spec acc (c :: r) out h
    · rw [hsep] at h
      rw [if_pos rfl] at h
      cases hp : cardPart3 (acc ++ [c]) r with
      | some out2 =>
        rw [hp] at h
        have hout : out2 = out := Option.some.inj h
        obtain ⟨g, hs, hall, h2, h7⟩ := cardPart3_spec (acc ++ [c]) r out2 hp
        refine ⟨g, ?_, hall, h2, h7⟩
        rw [← hout, hs, stripSeps_sep_snoc acc hsep]
      | none =>
        rw [hp] at h
        exact cardPart3_spec acc (c :: r) out h

theorem cardPart2_spec :
    ∀ (acc cs out : List Char), cardPart2 acc cs = some out →
      ∃ g, stripSeps out = stripSeps acc ++ g ∧ g.all isDigitC = true ∧
        10 ≤ g.length ∧ g.length ≤ 15 := by
  intro acc cs out h
  unfold cardPart2 at h
  cases ht : takeDigitsExact 4 cs with
  | none => rw [ht] at h; simp at h
  | some p =>
    obtain ⟨g4, r⟩ := p
    rw [ht] at h
    obtain ⟨g, hs, hall, h2, h7⟩ := cardSep2_spec (acc ++ g4) r out h
    obtain ⟨hall4, hlen4⟩ := takeDigitsExact_spec 4 cs g4 r ht
    refine ⟨g4 ++ g, ?_, ?_, ?_, ?_⟩
    · rw [hs, stripSeps_append, stripSeps_digits hall4, List.append_assoc]
    · rw [List.all_append, hall4, hall]
      rfl
    · rw [List.length_append, hlen4]
      omega
    · rw [List.length_append, hlen4]
      omega

theorem cardSep1_spec :
    ∀ (acc cs out : List Char), cardSep1 acc cs = some out →
      ∃ g, stripSeps out = stripSeps acc ++ g ∧ g.all isDigitC = true ∧
        10 ≤ g.length ∧ g.length ≤ 15 := by
  intro acc cs out h
  cases cs with
  | nil =>
    rw [cardSep1] at h
    exact cardPart2_spec acc [] out h
  | cons c r =>
    rw [cardSep1] at h
    cases hsep : isSepC c
    · rw [hsep] at h
      simp only [Bool.false_eq_true, if_false] at h
      exact cardPart2_spec acc (c :: r) out h
    · rw [hsep] at h
      rw [if_pos rfl] at h
      cases hp : cardPart2 (acc ++ [c]) r with
      | some out2 =>
        rw [hp] at h
        have hout : out2 = out := Option.some.inj h
        obtain ⟨g, hs, hall, h2, h7⟩ := cardPart2_spec (acc ++ [c]) r out2 hp
        refine ⟨g, ?_, hall, h2, h7⟩
        rw [← hout, hs, stripSeps_sep_snoc acc hsep]
      | none =>
        rw [hp] at h
        exact cardPart2_spec acc (c :: r) out h

/-- Any group captured by one anchored attempt of `reFullCard` strips to
a pure digit string of length 14 to 19. -/
theorem matchCardCore_spec :
    ∀ (cs out : List Char), matchCardCore cs = some out →
      (stripSeps out).all isDigitC = true ∧
      14 ≤ (stripSeps out).length ∧ (stripSeps out).length ≤ 19 := by
  intro cs out h
  unfold matchCardCore at h
  cases ht : takeDigitsExact 4 cs with
  | none => rw [ht] at h; simp at h
  | some p =>
    obtain ⟨g4, r⟩ := p
    rw [ht] at h
    obtain ⟨g, hs, hall, h10, h15⟩ := cardSep1_spec g4 r out h
    obtain ⟨hall4, hlen4⟩ := takeDigitsExact_spec 4 cs g4 r ht
    rw [hs, stripSeps_digits hall4]
    refine ⟨?_, ?_, ?_⟩
    · rw [List.all_append, hall4, hall]
      rfl
    · rw [List.length_append, hlen4]
      omega
    · rw [List.length_append, hlen4]
      omega

/-- Any group returned by the leftmost scan comes from an anchored
attempt of the pattern. -/
theorem findCard_core :
    ∀ (b : Bool) (cs out : List Char), findCard b cs = some out →
      ∃ cs2, matchCardCore cs2 = some out := by
  intro b cs
  induction cs generalizing b with
  | nil => intro out h; simp [findCard] at h
  | cons c r ih =>
    intro out h
    rw [findCard] at h
    cases b
    · simp only [Bool.false_eq_true, if_false] at h
      cases hm : matchCardCore (c :: r) with
      | some g =>
        rw [hm] at h
        exact ⟨c :: r, by rw [hm, Option.some.inj h]⟩
      | none =>
        rw [hm] at h
        exact ih (isWordC c) out h
    · rw [if_pos rfl] at h
      exact ih (isWordC c) out h

/-- Claim C6 amended: the extractor examines only the leftmost candidate
of `reFullCard`.  When the scan finds a captured group, the full-card
field is its separator-stripped digits exactly when at least 15 remain
(with last-four its final 4 digits), and stays empty otherwise — even if
a 15-19 digit run occurs later in the text; when the scan finds nothing,
the field stays empty.  A non-empty extracted full card number is always
a pure digit string of length 15-19 whose derived last-four is its final
4 digits. -/
theorem claim_C6_amended_first_candidate (text : List Char) :
    (∀ g, findCard false text = some g →
        ((15 ≤ (stripSeps g).length →
            extractFullCard text =
              (stripSeps g, (stripSeps g).drop ((stripSeps g).length - 4)))
         ∧ ((stripSeps g).length < 15 → extractFullCard text = ([], []))))
    ∧ (findCard false text = none → extractFullCard text = ([], []))
    ∧ ((extractFullCard text).1 ≠ [] →
        (extractFullCard text).1.all isDigitC = true
        ∧ 15 ≤ (extractFullCard text).1.length
        ∧ (extractFullCard text).1.length ≤ 19
        ∧ (extractFullCard text).2 =
            (extractFullCard text).1.drop ((extractFullCard text).1.length - 4)) := by
  refine ⟨?_, ?_, ?_⟩
  · intro g hg
    constructor
    · intro h15
      unfold extractFullCard
      rw [hg]
      show (if 15 ≤ (stripSeps g).length then
          (stripSeps g, (stripSeps g).drop ((stripSeps g).length - 4))
        else ([], [])) = _
      rw [if_pos h15]
    · intro h15
      unfold extractFullCard
      rw [hg]
      show (if 15 ≤ (stripSeps g).length then
          (stripSeps g, (stripSeps g).drop ((stripSeps g).length - 4))
        else ([], [])) = ([], [])
      rw [if_neg (by omega)]
  · intro h
    unfold extractFullCard
    rw [h]
  · cases hfc : findCard false text with
    | none =>
      intro hne
      exfalso
      apply hne
      have hex : extractFullCard text = ([], []) := by
        unfold extractFullCard
        rw [hfc]
      rw [hex]
    | some g =>
      intro hne
      obtain ⟨cs2, hcs2⟩ := findCard_core false text g hfc
      have hspec := matchCardCore_spec cs2 g hcs2
      by_cases h15 : 15 ≤ (stripSeps g).length
      · have hex : extractFullCard text =
            (stripSeps g, (stripSeps g).drop ((stripSeps g).length - 4)) := by
          unfold extractFullCard
          rw [hfc]
          show (if 15 ≤ (stripSeps g).length then
              (stripSeps g, (stripSeps g).drop ((stripSeps g).length - 4))
            else ([], [])) = _
          rw [if_pos h15]
        rw [hex]
        exact ⟨hspec.1, h15, hspec.2.2, rfl⟩
      · have hex : extractFullCard text = ([], []) := by
          unfold extractFullCard
          rw [hfc]
          show (if 15 ≤ (stripSeps g).length then
              (stripSeps g, (stripSeps g).drop ((stripSeps g).length - 4))
            else ([], [])) = ([], [])
          rw [if_neg h15]
        rw [hex] at hne
        exact absurd rfl hne

/-- Counterexample to claim C6 as stated: on a text whose first 15-19
digit run is the later 16-digit number, the extractor returns the empty
full-card field, because the leftmost regex candidate is the leading
14-digit run, which fails the >= 15 check, and no further candidate is
ever examined. -/
theorem claim_C6_counterexample :
    firstRun1519 ("12345678901234 1234567890123456".data)
      = some ("1234567890123456".data)
    ∧ extractFullCard ("12345678901234 1234567890123456".data) = ([], []) := by
  constructor
  · decide
  · decide

/-- Witness for the amended claim C6: a concrete text whose leftmost
candidate is a separator-grouped 16-digit card number yields that number
with its last four digits. -/
theorem claim_C6_witness :
    extractFullCard ("卡号 6225 8812 3456 7890 到期".data)
      = ("6225881234567890".data, "7890".data) := by
  have h := (claim_C6_amended_first_candidate
      ("卡号 6225 8812 3456 7890 到期".data)).1
    ("6225 8812 3456 7890".data) (by decide)
  have h2 := h.1 (by decide)
  rw [h2]
  decide

end CreditCard
